import Mathlib

/-!
Verification of the steamcmd wrapper (`src/rrm-cli/src/steam_cmd.rs`).

The stdout consumer task, the stderr consumer task, the argument builder of
`Steam::spawn` and the helper `write_number_into_buff` are shallowly embedded
below.  Stateful channel sends become list-building; a task panic (an `expect`
or explicit `panic!` firing) is modelled as `Option.none`, so a `none` result
means the task halted and sent none of the remaining events.  Rust `usize` is
modelled as `Nat` with the `< 2 ^ 64` bound made explicit where it matters.
All inputs considered are ASCII, so Rust's Unicode `char::is_whitespace` is
modelled by the ASCII whitespace characters.
-/

namespace Rrm

/-- ASCII whitespace, modelling `char::is_whitespace` on the ASCII inputs at hand. -/
def isWS (c : Char) : Bool :=
  c = ' ' || c = '\t' || c = '\n' || c = '\r'

/-- Model of `str::trim` on a token: drop whitespace from both ends. -/
def trimChars (s : List Char) : List Char :=
  ((s.dropWhile isWS).reverse.dropWhile isWS).reverse

/-- `str::trim` lifted to `String`. -/
def trimS (s : String) : String :=
  String.mk (trimChars s.data)

/-- Model of Rust `line.split(' ')` on the character list: split at every single
space character; `n` spaces yield `n + 1` pieces. -/
def splitChars : List Char → List (List Char)
  | [] => [[]]
  | c :: cs =>
    if c = ' ' then [] :: splitChars cs
    else
      match splitChars cs with
      | [] => [[c]]
      | p :: ps => (c :: p) :: ps

/-- Rust `line.split(' ')` producing the token list of a line. -/
def splitSp (s : String) : List String :=
  (splitChars s.data).map (fun cs => String.mk cs)

/-- Model of `str::parse::<usize>`: an optional leading `+`, then one or more
ASCII digits, value below `2 ^ 64` (usize overflow is a parse error). -/
def parseUsize (s : String) : Option Nat :=
  let t := match s.data with
    | '+' :: rest => rest
    | l => l
  if t ≠ [] ∧ t.all Char.isDigit then
    let v := t.foldl (fun a c => a * 10 + (c.toNat - 48)) 0
    if v < 2 ^ 64 then some v else none
  else none

/-- Model of `curr.trim_start_matches("(")`: drop every leading `(`. -/
def trimStartParens (s : String) : String :=
  String.mk (s.data.dropWhile (fun c => c = '('))

/-- Model of the byte slice `&path[1..path.len() - 1]` (followed by the
infallible `PathBuf::from_str`).  The slice panics — `none` — unless the string
has at least two characters and both the first and the last character occupy a
single UTF-8 byte (otherwise index `1` or `len - 1` is not a char boundary). -/
def stripEnds (path : String) : Option String :=
  match path.data with
  | c :: d :: rest =>
    if c.utf8Size = 1 ∧ ((d :: rest).getLastD d).utf8Size = 1 then
      some (String.mk ((d :: rest).dropLast))
    else none
  | _ => none

/-- `GameId(pub usize)`. -/
structure GameId where
  val : Nat
deriving DecidableEq, Repr

/-- `ItemId(pub usize)`. -/
structure ItemId where
  val : Nat
deriving DecidableEq, Repr

/-- `enum OutputLine { Error(String), Normal(String) }`. -/
inductive OutputLine
  | Error (s : String)
  | Normal (s : String)
deriving DecidableEq, Repr

/-- `enum Event { Output(OutputLine), Starting(ItemId), Done(ItemId, PathBuf, usize) }`;
the `PathBuf` is modelled by the `String` it was built from. -/
inductive Event
  | Output (l : OutputLine)
  | Starting (id : ItemId)
  | Done (id : ItemId) (path : String) (size : Nat)
deriving DecidableEq, Repr

/-- `true` for the structured events `Starting` and `Done`, `false` for `Output`. -/
def Event.isStructured : Event → Bool
  | .Output _ => false
  | .Starting _ => true
  | .Done _ _ _ => true

/-- `struct Item { game: GameId, item: ItemId }`. -/
structure Item where
  game : GameId
  item : ItemId
deriving DecidableEq, Repr

/-- `handle_download_start`: the words after the matched `Downloading` token.
It consumes `"item"`, then parses the trimmed next token as the item id
(`expect` panics — `none` — when the token is absent or does not parse), and
sends `Starting`. -/
def handle_download_start : List String → Option (Event × List String)
  | _ :: idtok :: rest =>
    (parseUsize (trimS idtok)).map (fun n => (Event.Starting ⟨n⟩, rest))
  | _ => none

/-- The `loop` inside `handle_download_end`: consume `curr`, peek `next`; when
the peeked token trims to `"bytes)"`, parse `curr` (leading `(` stripped) as the
byte count and consume the terminator, otherwise append `" " ++ curr` to the
accumulated path.  Running out of tokens is the `panic!` — `none`. -/
def endLoop : String → List String → Option (String × Nat × List String)
  | _, [] => none
  | path, [curr] => endLoop (path ++ " " ++ curr) []
  | path, curr :: next :: rest =>
    if trimS next = "bytes)" then
      (parseUsize (trimStartParens curr)).map (fun b => (path, b, rest))
    else
      endLoop (path ++ " " ++ curr) (next :: rest)

/-- `handle_download_end`: consumes `"item"`, parses the trimmed item id,
discards the following token (the expected `"to"`) without inspecting it, takes
the next token as the start of the path, runs the terminator loop, and strips
the first and last character of the accumulated path. -/
def handle_download_end : List String → Option (Event × List String)
  | _ :: idtok :: _ :: p0 :: rest =>
    match parseUsize (trimS idtok) with
    | none => none
    | some n =>
      match endLoop p0 rest with
      | none => none
      | some (path, size, rest2) =>
        match stripEnds path with
        | none => none
        | some p => some (Event.Done ⟨n⟩ p size, rest2)
  | _ => none

/-- The scanning `while let Some(word) = words.next()` loop of the stdout task,
with a structural fuel argument (one unit per consumed head token; the wrapper
`scanLoop` supplies enough fuel for the fuel never to run out). -/
def scanGo : Nat → List String → Option (List Event)
  | 0, _ => none
  | _ + 1, [] => some []
  | fuel + 1, w :: ws =>
    if trimS w = "Downloading" ∧ ws.head? = some "item" then
      match handle_download_start ws with
      | some (e, rest) => (scanGo fuel rest).map (fun evs => e :: evs)
      | none => none
    else if trimS w = "Downloaded" ∧ ws.head? = some "item" then
      match handle_download_end ws with
      | some (e, rest) => (scanGo fuel rest).map (fun evs => e :: evs)
      | none => none
    else
      scanGo fuel ws

/-- The scan of one line's token list: the events the two sub-parsers send
while the scanning loop walks the tokens, or `none` if a parse panics. -/
def scanLoop (ws : List String) : Option (List Event) :=
  scanGo (ws.length + 1) ws

/-- One iteration of the stdout task's line loop: scan the tokens of the line,
then send `Output(Normal(line))`.  `none` models the task panicking on the
line, in which case no event of the line (not even its `Output`) is sent. -/
def processLine (line : String) : Option (List Event) :=
  (scanLoop (splitSp line)).map
    (fun evs => evs ++ [Event.Output (OutputLine.Normal line)])

/-- The stderr task's line loop: every line is sent as `Output(Error(line))`,
with no interpretation. -/
def stderrTask : List String → List Event
  | [] => []
  | line :: rest => Event.Output (OutputLine.Error line) :: stderrTask rest

/-- Decimal digit list of `n`, least significant first, produced by repeated
`% 10` / `/ 10` with a structural fuel bound (`fuel ≥ n` suffices). -/
def digitsRev : Nat → Nat → List Nat
  | 0, _ => []
  | fuel + 1, n => if n = 0 then [] else n % 10 :: digitsRev fuel (n / 10)

/-- The text `write!(cursor, "{value}")` produces for a `usize` value: plain
decimal digits, most significant first, `"0"` for zero. -/
def decimalRepr (n : Nat) : String :=
  if n = 0 then "0"
  else String.mk (((digitsRev n n).map Nat.digitChar).reverse)

/-- `write_number_into_buff`: format the value in decimal into a fixed 25-byte
buffer through a `Cursor`.  If the text does not fit the buffer the `write!`
result is an error and the `unwrap` panics — `none`.  Every digit is one byte,
so the fit test is on the digit count. -/
def write_number_into_buff (value : Nat) : Option String :=
  if (decimalRepr value).data.length ≤ 25 then some (decimalRepr value) else none

/-- The three arguments pushed per configured item in `Steam::spawn`. -/
def itemArgs (it : Item) : List String :=
  ["+workshop_download_item", decimalRepr it.game.val, decimalRepr it.item.val]

/-- One iteration of the `for Item { .. } in self.items` loop in `Steam::spawn`:
format both ids with `write_number_into_buff` and push the three arguments. -/
def spawnStep (acc : List String) (it : Item) : Option (List String) := do
  let g ← write_number_into_buff it.game.val
  let i ← write_number_into_buff it.item.val
  pure (acc ++ ["+workshop_download_item", g, i])

/-- The argument vector built in `Steam::spawn` (after the executable and the
platform env wrapper): the `+login anonymous` bookend, three arguments per item
in configuration order via `write_number_into_buff`, then `+quit`.  `none`
models a panic of one of the formatting `unwrap`s. -/
def spawnArgs (items : List Item) : Option (List String) := do
  let withItems ← items.foldlM spawnStep ["+login", "anonymous"]
  pure (withItems ++ ["+quit"])

/-- Fold a path accumulation: append `" " ++ tok` for each token, as the
terminator loop does. -/
def joinSp (path : String) (toks : List String) : String :=
  toks.foldl (fun a t => a ++ " " ++ t) path

/-- Decimal reading of a digit string, for stating what the rendered text of
`write_number_into_buff` denotes. -/
def natOfDec (s : String) : Nat :=
  s.data.foldl (fun a c => a * 10 + (c.toNat - 48)) 0

/-! ### Length bounds for the scan's sub-parsers -/

theorem handle_download_start_len {ws rest : List String} {e : Event}
    (h : handle_download_start ws = some (e, rest)) : rest.length ≤ ws.length := by
  match ws with
  | [] => simp [handle_download_start] at h
  | [_] => simp [handle_download_start] at h
  | _ :: idtok :: r =>
    simp only [handle_download_start, Option.map_eq_some'] at h
    obtain ⟨n, _, h2⟩ := h
    cases h2
    simp only [List.length_cons]
    omega

theorem endLoop_len : ∀ (l : List String) (p s : String) (b : Nat) (r : List String),
    endLoop p l = some (s, b, r) → r.length ≤ l.length := by
  intro l
  induction l with
  | nil => intro p s b r h; simp [endLoop] at h
  | cons c tail ih =>
    intro p s b r h
    match tail with
    | [] => simp [endLoop] at h
    | next :: rest =>
      rw [endLoop] at h
      by_cases hb : trimS next = "bytes)"
      · rw [if_pos hb] at h
        simp only [Option.map_eq_some'] at h
        obtain ⟨n, _, h2⟩ := h
        cases h2
        simp only [List.length_cons]
        omega
      · rw [if_neg hb] at h
        have := ih (p ++ " " ++ c) s b r h
        calc r.length ≤ (next :: rest).length := this
          _ ≤ (c :: next :: rest).length := by simp

theorem handle_download_end_len {ws rest : List String} {e : Event}
    (h : handle_download_end ws = some (e, rest)) : rest.length ≤ ws.length := by
  match ws with
  | [] => simp [handle_download_end] at h
  | [_] => simp [handle_download_end] at h
  | [_, _] => simp [handle_download_end] at h
  | [_, _, _] => simp [handle_download_end] at h
  | _ :: idtok :: x :: p0 :: r =>
    rw [handle_download_end] at h
    cases hp : parseUsize (trimS idtok) with
    | none => rw [hp] at h; exact absurd h (by simp)
    | some n =>
      rw [hp] at h
      dsimp only at h
      cases he : endLoop p0 r with
      | none => rw [he] at h; exact absurd h (by simp)
      | some v =>
        obtain ⟨path, size, rest2⟩ := v
        rw [he] at h
        dsimp only at h
        cases hs : stripEnds path with
        | none => rw [hs] at h; exact absurd h (by simp)
        | some p =>
          rw [hs] at h
          cases h
          have := endLoop_len r p0 path size rest he
          calc rest.length ≤ r.length := this
            _ ≤ r.length + 4 := by omega
            _ = (_ :: idtok :: x :: p0 :: r).length := by simp

/-! ### Fuel irrelevance and step equations for the scanning loop -/

theorem scanGo_succ_cons (fuel : Nat) (w : String) (ws : List String) :
    scanGo (fuel + 1) (w :: ws) =
      if trimS w = "Downloading" ∧ ws.head? = some "item" then
        match handle_download_start ws with
        | some (e, rest) => (scanGo fuel rest).map (fun evs => e :: evs)
        | none => none
      else if trimS w = "Downloaded" ∧ ws.head? = some "item" then
        match handle_download_end ws with
        | some (e, rest) => (scanGo fuel rest).map (fun evs => e :: evs)
        | none => none
      else
        scanGo fuel ws := rfl

theorem scanGo_fuel : ∀ (f g : Nat) (ws : List String),
    ws.length < f → ws.length < g → scanGo f ws = scanGo g ws := by
  intro f
  induction f with
  | zero => intro g ws h; exact absurd h (Nat.not_lt_zero _)
  | succ f ih =>
    intro g ws hf hg
    match g, ws with
    | 0, ws => exact absurd hg (Nat.not_lt_zero _)
    | g + 1, [] => rfl
    | g + 1, w :: ws =>
      rw [scanGo_succ_cons f w ws, scanGo_succ_cons g w ws]
      simp only [List.length_cons] at hf hg
      by_cases h1 : trimS w = "Downloading" ∧ ws.head? = some "item"
      · rw [if_pos h1, if_pos h1]
        cases hh : handle_download_start ws with
        | none => rfl
        | some v =>
          obtain ⟨e, rest⟩ := v
          have hlen := handle_download_start_len hh
          dsimp only
          rw [ih g rest (by omega) (by omega)]
      · rw [if_neg h1, if_neg h1]
        by_cases h2 : trimS w = "Downloaded" ∧ ws.head? = some "item"
        · rw [if_pos h2, if_pos h2]
          cases hh : handle_download_end ws with
          | none => rfl
          | some v =>
            obtain ⟨e, rest⟩ := v
            have hlen := handle_download_end_len hh
            dsimp only
            rw [ih g rest (by omega) (by omega)]
        · rw [if_neg h2, if_neg h2]
          exact ih g ws (by omega) (by omega)

theorem scanLoop_nil : scanLoop [] = some [] := rfl

theorem scanLoop_skip (w : String) (ws : List String)
    (h1 : ¬(trimS w = "Downloading" ∧ ws.head? = some "item"))
    (h2 : ¬(trimS w = "Downloaded" ∧ ws.head? = some "item")) :
    scanLoop (w :: ws) = scanLoop ws := by
  show scanGo ((w :: ws).length + 1) (w :: ws) = scanLoop ws
  rw [List.length_cons, scanGo_succ_cons, if_neg h1, if_neg h2]
  rfl

theorem scanLoop_start_trigger (w : String) (ws : List String)
    (hw : trimS w = "Downloading") (hh : ws.head? = some "item") :
    scanLoop (w :: ws) =
      match handle_download_start ws with
      | some (e, rest) => (scanLoop rest).map (fun evs => e :: evs)
      | none => none := by
  show scanGo ((w :: ws).length + 1) (w :: ws) = _
  rw [List.length_cons, scanGo_succ_cons, if_pos ⟨hw, hh⟩]
  cases hd : handle_download_start ws with
  | none => rfl
  | some v =>
    obtain ⟨e, rest⟩ := v
    have hlen := handle_download_start_len hd
    dsimp only
    rw [scanGo_fuel (ws.length + 1) (rest.length + 1) rest (by omega) (by omega)]
    rfl

theorem scanLoop_end_trigger (w : String) (ws : List String)
    (hw : trimS w = "Downloaded") (hh : ws.head? = some "item") :
    scanLoop (w :: ws) =
      match handle_download_end ws with
      | some (e, rest) => (scanLoop rest).map (fun evs => e :: evs)
      | none => none := by
  have h1 : ¬(trimS w = "Downloading" ∧ ws.head? = some "item") := by
    rw [hw]; simp
  show scanGo ((w :: ws).length + 1) (w :: ws) = _
  rw [List.length_cons, scanGo_succ_cons, if_neg h1, if_pos ⟨hw, hh⟩]
  cases hd : handle_download_end ws with
  | none => rfl
  | some v =>
    obtain ⟨e, rest⟩ := v
    have hlen := handle_download_end_len hd
    dsimp only
    rw [scanGo_fuel (ws.length + 1) (rest.length + 1) rest (by omega) (by omega)]
    rfl

/-- Scanning a prefix of tokens none of which trims to `Downloading` or
`Downloaded` triggers nothing: the scan of `pre ++ ws` is the scan of `ws`. -/
theorem scanLoop_append (pre ws : List String)
    (h : ∀ t ∈ pre, trimS t ≠ "Downloading" ∧ trimS t ≠ "Downloaded") :
    scanLoop (pre ++ ws) = scanLoop ws := by
  induction pre with
  | nil => rfl
  | cons w pre ih =>
    have hw := h w (by simp)
    rw [List.cons_append, scanLoop_skip w (pre ++ ws)
      (fun hc => hw.1 hc.1) (fun hc => hw.2 hc.1)]
    exact ih (fun t ht => h t (by simp [ht]))

/-! ### Specialised scan equations -/

theorem scanLoop_start (w idtok : String) (ws : List String)
    (hw : trimS w = "Downloading") :
    scanLoop (w :: "item" :: idtok :: ws) =
      match parseUsize (trimS idtok) with
      | some n => (scanLoop ws).map (fun evs => Event.Starting ⟨n⟩ :: evs)
      | none => none := by
  rw [scanLoop_start_trigger w ("item" :: idtok :: ws) hw rfl]
  show (match (parseUsize (trimS idtok)).map (fun n => (Event.Starting ⟨n⟩, ws)) with
      | some (e, rest) => (scanLoop rest).map (fun evs => e :: evs)
      | none => none) = _
  cases hp : parseUsize (trimS idtok) with
  | none => rfl
  | some n => rfl

theorem scanLoop_start_missing (w : String) (hw : trimS w = "Downloading") :
    scanLoop [w, "item"] = none := by
  rw [scanLoop_start_trigger w ["item"] hw rfl]
  rfl

theorem scanLoop_done (w idtok x p0 : String) (l : List String)
    (hw : trimS w = "Downloaded") :
    scanLoop (w :: "item" :: idtok :: x :: p0 :: l) =
      match parseUsize (trimS idtok) with
      | none => none
      | some n =>
        match endLoop p0 l with
        | none => none
        | some (path, size, rest2) =>
          match stripEnds path with
          | none => none
          | some p => (scanLoop rest2).map (fun evs => Event.Done ⟨n⟩ p size :: evs) := by
  rw [scanLoop_end_trigger w ("item" :: idtok :: x :: p0 :: l) hw rfl]
  dsimp only [handle_download_end]
  cases hp : parseUsize (trimS idtok) with
  | none => rfl
  | some n =>
    dsimp only
    cases he : endLoop p0 l with
    | none => rfl
    | some v =>
      obtain ⟨path, size, rest2⟩ := v
      dsimp only
      cases hs : stripEnds path with
      | none => rfl
      | some p => rfl

theorem scanLoop_done_fail (w : String) (l : List String)
    (hw : trimS w = "Downloaded")
    (hnone : handle_download_end ("item" :: l) = none) :
    scanLoop (w :: "item" :: l) = none := by
  rw [scanLoop_end_trigger w ("item" :: l) hw rfl, hnone]

/-! ### The terminator loop characterised -/

theorem endLoop_nil (p : String) : endLoop p [] = none := rfl

theorem endLoop_single (p c : String) : endLoop p [c] = none := rfl

theorem endLoop_cons (p c n : String) (r : List String) :
    endLoop p (c :: n :: r) =
      if trimS n = "bytes)" then
        (parseUsize (trimStartParens c)).map (fun b => (p, b, r))
      else endLoop (p ++ " " ++ c) (n :: r) := rfl

/-- When no token of the list trims to `"bytes)"`, the terminator loop runs out
of tokens and panics. -/
theorem endLoop_no_term : ∀ (l : List String) (p : String),
    (∀ t ∈ l, trimS t ≠ "bytes)") → endLoop p l = none := by
  intro l
  induction l with
  | nil => intro p _; rfl
  | cons c tail ih =>
    intro p h
    cases tail with
    | nil => rfl
    | cons n r =>
      rw [endLoop_cons, if_neg (h n (by simp))]
      exact ih (p ++ " " ++ c) (fun t ht => h t (by simp [ht]))

/-- When the path tokens `ps` and the size token `sz` do not trim to
`"bytes)"` and the terminator follows `sz`, the loop accumulates exactly
`joinSp path ps` and parses `sz` as the byte count. -/
theorem endLoop_terminates : ∀ (ps : List String) (path sz : String) (rest : List String),
    (∀ t ∈ ps, trimS t ≠ "bytes)") → trimS sz ≠ "bytes)" →
    endLoop path (ps ++ sz :: "bytes)" :: rest) =
      (parseUsize (trimStartParens sz)).map (fun b => (joinSp path ps, b, rest)) := by
  intro ps
  induction ps with
  | nil =>
    intro path sz rest _ _
    rw [List.nil_append, endLoop_cons, if_pos (by decide)]
    rfl
  | cons q ps ih =>
    intro path sz rest hps hsz
    cases ps with
    | nil =>
      rw [List.cons_append, List.nil_append, endLoop_cons, if_neg hsz]
      have h2 := ih (path ++ " " ++ q) sz rest (by simp) hsz
      rw [List.nil_append] at h2
      rw [h2]
      rfl
    | cons q2 ps2 =>
      have hq2 := hps q2 (by simp)
      rw [List.cons_append, List.cons_append, endLoop_cons, if_neg hq2]
      have h2 := ih (path ++ " " ++ q) sz rest (fun t ht => hps t (by simp [ht])) hsz
      rw [List.cons_append] at h2
      rw [h2]
      rfl

/-! ### The final slice of the accumulated path -/

theorem mk_data (s : String) : String.mk s.data = s := rfl

/-- The slice keeps exactly the characters between the first and the last one,
whatever those two characters are, whenever both occupy one byte. -/
theorem stripEnds_eq (s : String) (c e : Char) (mid : List Char)
    (h : s.data = c :: (mid ++ [e])) (hc : c.utf8Size = 1) (he : e.utf8Size = 1) :
    stripEnds s = some (String.mk mid) := by
  have h2 : ∃ d rest, mid ++ [e] = d :: rest := by
    cases mid with
    | nil => exact ⟨e, [], rfl⟩
    | cons m ms => exact ⟨m, ms ++ [e], rfl⟩
  obtain ⟨d, rest, hdr⟩ := h2
  unfold stripEnds
  rw [h, hdr]
  have hlast : (d :: rest).getLastD d = e := by
    rw [← hdr]
    exact List.getLastD_concat _ _ _
  have hdrop : (d :: rest).dropLast = mid := by
    rw [← hdr]
    exact List.dropLast_concat
  dsimp only
  rw [hlast, hdrop, if_pos ⟨hc, he⟩]

/-- Stripping a path enclosed in quote characters yields the inner text. -/
theorem stripEnds_quote (p : String) : stripEnds ("\"" ++ p ++ "\"") = some p := by
  have h : ("\"" ++ p ++ "\"").data = '"' :: (p.data ++ ['"']) := by
    simp [String.data_append]
  rw [stripEnds_eq _ '"' '"' p.data h (by decide) (by decide), mk_data]

/-- A string of fewer than two characters makes the slice panic. -/
theorem stripEnds_short (s : String) (h : s.data.length < 2) : stripEnds s = none := by
  unfold stripEnds
  match hd : s.data with
  | [] => rfl
  | [c] => rfl
  | c :: d :: rest =>
    rw [hd] at h
    simp only [List.length_cons] at h
    omega

/-! ### Only structured events come out of the scan -/

theorem handle_download_start_ev {ws rest : List String} {e : Event}
    (h : handle_download_start ws = some (e, rest)) : ∃ n, e = Event.Starting n := by
  match ws with
  | [] => simp [handle_download_start] at h
  | [_] => simp [handle_download_start] at h
  | _ :: idtok :: r =>
    simp only [handle_download_start, Option.map_eq_some'] at h
    obtain ⟨n, _, h2⟩ := h
    cases h2
    exact ⟨⟨n⟩, rfl⟩

theorem handle_download_end_ev {ws rest : List String} {e : Event}
    (h : handle_download_end ws = some (e, rest)) : ∃ n p b, e = Event.Done n p b := by
  match ws with
  | [] => simp [handle_download_end] at h
  | [_] => simp [handle_download_end] at h
  | [_, _] => simp [handle_download_end] at h
  | [_, _, _] => simp [handle_download_end] at h
  | _ :: idtok :: x :: p0 :: r =>
    rw [handle_download_end] at h
    cases hp : parseUsize (trimS idtok) with
    | none => rw [hp] at h; exact absurd h (by simp)
    | some n =>
      rw [hp] at h
      dsimp only at h
      cases he : endLoop p0 r with
      | none => rw [he] at h; exact absurd h (by simp)
      | some v =>
        obtain ⟨path, size, rest2⟩ := v
        rw [he] at h
        dsimp only at h
        cases hs : stripEnds path with
        | none => rw [hs] at h; exact absurd h (by simp)
        | some p =>
          rw [hs] at h
          cases h
          exact ⟨⟨n⟩, p, size, rfl⟩

theorem scanGo_structured : ∀ (f : Nat) (ws : List String) (evs : List Event),
    scanGo f ws = some evs → ∀ e ∈ evs, e.isStructured = true := by
  intro f
  induction f with
  | zero => intro ws evs h; simp [scanGo] at h
  | succ f ih =>
    intro ws evs h
    match ws with
    | [] =>
      have : evs = [] := by simpa [scanGo] using h.symm
      simp [this]
    | w :: ws =>
      rw [scanGo_succ_cons] at h
      by_cases h1 : trimS w = "Downloading" ∧ ws.head? = some "item"
      · rw [if_pos h1] at h
        cases hh : handle_download_start ws with
        | none => rw [hh] at h; exact absurd h (by simp)
        | some v =>
          obtain ⟨e0, rest⟩ := v
          rw [hh] at h
          dsimp only at h
          simp only [Option.map_eq_some'] at h
          obtain ⟨evs0, hrec, h2⟩ := h
          cases h2
          intro e he
          rcases List.mem_cons.mp he with h3 | h3
          · obtain ⟨n, hn⟩ := handle_download_start_ev hh
            rw [h3, hn]
            rfl
          · exact ih rest evs0 hrec e h3
      · rw [if_neg h1] at h
        by_cases h2 : trimS w = "Downloaded" ∧ ws.head? = some "item"
        · rw [if_pos h2] at h
          cases hh : handle_download_end ws with
          | none => rw [hh] at h; exact absurd h (by simp)
          | some v =>
            obtain ⟨e0, rest⟩ := v
            rw [hh] at h
            dsimp only at h
            simp only [Option.map_eq_some'] at h
            obtain ⟨evs0, hrec, h3⟩ := h
            cases h3
            intro e he
            rcases List.mem_cons.mp he with h4 | h4
            · obtain ⟨n, p, b, hn⟩ := handle_download_end_ev hh
              rw [h4, hn]
              rfl
            · exact ih rest evs0 hrec e h4
        · rw [if_neg h2] at h
          exact ih ws evs h

theorem scanLoop_structured {ws : List String} {evs : List Event}
    (h : scanLoop ws = some evs) : ∀ e ∈ evs, e.isStructured = true :=
  scanGo_structured (ws.length + 1) ws evs h

/-! ### The decimal rendering characterised -/

theorem digitsRev_eq : ∀ (f n : Nat), n ≤ f → digitsRev f n = Nat.digits 10 n := by
  intro f
  induction f with
  | zero =>
    intro n h
    have h0 : n = 0 := Nat.le_zero.mp h
    subst h0
    simp [digitsRev]
  | succ f ih =>
    intro n h
    by_cases h0 : n = 0
    · subst h0
      simp [digitsRev]
    · rw [digitsRev, if_neg h0,
        Nat.digits_def' (by norm_num : (1:ℕ) < 10) (Nat.pos_of_ne_zero h0)]
      have hdiv : n / 10 < n := Nat.div_lt_self (Nat.pos_of_ne_zero h0) (by norm_num)
      rw [ih (n / 10) (by omega)]

theorem toDigitsCore_eq : ∀ (f n : Nat) (ds : List Char), 0 < n → n ≤ f →
    Nat.toDigitsCore 10 f n ds = ((Nat.digits 10 n).map Nat.digitChar).reverse ++ ds := by
  intro f
  induction f with
  | zero => intro n ds hn h; omega
  | succ f ih =>
    intro n ds hn h
    rw [Nat.toDigitsCore]
    rw [Nat.digits_def' (by norm_num : (1:ℕ) < 10) hn]
    by_cases hq : n / 10 = 0
    · rw [if_pos hq, hq]
      simp
    · rw [if_neg hq]
      have hdiv : n / 10 < n := Nat.div_lt_self hn (by norm_num)
      rw [ih (n / 10) (Nat.digitChar (n % 10) :: ds) (Nat.pos_of_ne_zero hq) (by omega)]
      simp

/-- The fixed-buffer rendering loop agrees with the ordinary decimal formatter
`Nat.repr` on every natural number. -/
theorem decimalRepr_eq_repr (n : Nat) : decimalRepr n = Nat.repr n := by
  by_cases h0 : n = 0
  · subst h0
    rfl
  · show decimalRepr n = (Nat.toDigitsCore 10 (n + 1) n []).asString
    rw [toDigitsCore_eq (n + 1) n [] (Nat.pos_of_ne_zero h0) (by omega)]
    unfold decimalRepr
    rw [if_neg h0, digitsRev_eq n n le_rfl]
    simp [List.asString]

theorem digitChar_isDigit (d : Nat) (h : d < 10) : (Nat.digitChar d).isDigit = true := by
  interval_cases d <;> rfl

theorem digitChar_toNat (d : Nat) (h : d < 10) : (Nat.digitChar d).toNat - 48 = d := by
  interval_cases d <;> rfl

theorem digitChar_ne_zero_char (d : Nat) (h : d < 10) (h0 : d ≠ 0) :
    Nat.digitChar d ≠ '0' := by
  interval_cases d <;> revert h0 <;> decide

theorem decimalRepr_all_digits (n : Nat) :
    ∀ c ∈ (decimalRepr n).data, c.isDigit = true := by
  by_cases h0 : n = 0
  · subst h0
    intro c hc
    simp only [decimalRepr, if_pos rfl] at hc
    have : c = '0' := by simpa using hc
    rw [this]
    rfl
  · intro c hc
    rw [decimalRepr, if_neg h0, digitsRev_eq n n le_rfl] at hc
    have hc2 : c ∈ ((Nat.digits 10 n).map Nat.digitChar).reverse := hc
    rw [List.mem_reverse, List.mem_map] at hc2
    obtain ⟨d, hd, hdc⟩ := hc2
    rw [← hdc]
    exact digitChar_isDigit d (Nat.digits_lt_base (by norm_num) hd)

theorem decimalRepr_ne_nil (n : Nat) : (decimalRepr n).data ≠ [] := by
  by_cases h0 : n = 0
  · subst h0
    decide
  · rw [decimalRepr, if_neg h0, digitsRev_eq n n le_rfl]
    show ((Nat.digits 10 n).map Nat.digitChar).reverse ≠ []
    intro hc
    have hlen := congrArg List.length hc
    simp only [List.length_reverse, List.length_map, List.length_nil] at hlen
    exact (Nat.digits_ne_nil_iff_ne_zero.mpr h0) (List.eq_nil_of_length_eq_zero hlen)

theorem decimalRepr_head_ne_zero (n : Nat) (h0 : n ≠ 0) :
    (decimalRepr n).data.head? ≠ some '0' := by
  rw [decimalRepr, if_neg h0, digitsRev_eq n n le_rfl]
  show (((Nat.digits 10 n).map Nat.digitChar).reverse).head? ≠ some '0'
  have hne : Nat.digits 10 n ≠ [] := Nat.digits_ne_nil_iff_ne_zero.mpr h0
  rw [List.head?_reverse, List.getLast?_map,
    List.getLast?_eq_getLast _ hne]
  have hlast := Nat.getLast_digit_ne_zero 10 h0
  have hmem : (Nat.digits 10 n).getLast hne ∈ Nat.digits 10 n := List.getLast_mem hne
  have hlt := Nat.digits_lt_base (by norm_num) hmem
  simp only [Option.map_some']
  intro hcontra
  exact digitChar_ne_zero_char _ hlt hlast (by injection hcontra)

theorem decimalRepr_ne_directive (n : Nat) :
    decimalRepr n ≠ "+workshop_download_item" := by
  intro h
  have hmem : '+' ∈ (decimalRepr n).data := by
    rw [h]
    decide
  have := decimalRepr_all_digits n '+' hmem
  exact absurd this (by decide)

theorem foldr_ofDigits : ∀ (L : List Nat), (∀ d ∈ L, d < 10) →
    (L.map Nat.digitChar).foldr (fun c a => a * 10 + (c.toNat - 48)) 0 =
      Nat.ofDigits 10 L := by
  intro L
  induction L with
  | nil => intro _; rfl
  | cons d L ih =>
    intro h
    have hd := h d (by simp)
    rw [List.map_cons, List.foldr_cons, ih (fun x hx => h x (by simp [hx])),
      Nat.ofDigits_cons, digitChar_toNat d hd]
    omega

theorem natOfDec_decimalRepr (n : Nat) : natOfDec (decimalRepr n) = n := by
  by_cases h0 : n = 0
  · subst h0
    rfl
  · rw [natOfDec, decimalRepr, if_neg h0, digitsRev_eq n n le_rfl]
    show (((Nat.digits 10 n).map Nat.digitChar).reverse).foldl
      (fun a c => a * 10 + (c.toNat - 48)) 0 = n
    rw [List.foldl_reverse]
    rw [foldr_ofDigits (Nat.digits 10 n) (fun d hd => Nat.digits_lt_base (by norm_num) hd)]
    exact Nat.ofDigits_digits 10 n

theorem decimalRepr_len (n : Nat) (h : n < 2 ^ 64) : (decimalRepr n).data.length ≤ 25 := by
  by_cases h0 : n = 0
  · subst h0
    decide
  · rw [decimalRepr, if_neg h0, digitsRev_eq n n le_rfl]
    show (((Nat.digits 10 n).map Nat.digitChar).reverse).length ≤ 25
    rw [List.length_reverse, List.length_map,
      Nat.digits_len 10 n (by norm_num) h0]
    have hlog : Nat.log 10 n < 20 :=
      Nat.log_lt_of_lt_pow h0 (lt_of_lt_of_le h (by norm_num))
    omega

theorem write_number_some (n : Nat) (h : n < 2 ^ 64) :
    write_number_into_buff n = some (decimalRepr n) := by
  rw [write_number_into_buff, if_pos (decimalRepr_len n h)]

/-! ### The spawn argument vector -/

theorem spawnStep_some (acc : List String) (it : Item)
    (hg : it.game.val < 2 ^ 64) (hi : it.item.val < 2 ^ 64) :
    spawnStep acc it = some (acc ++ itemArgs it) := by
  rw [spawnStep, write_number_some _ hg, write_number_some _ hi]
  rfl

theorem spawnFold_eq : ∀ (items : List Item) (acc : List String),
    (∀ it ∈ items, it.game.val < 2 ^ 64 ∧ it.item.val < 2 ^ 64) →
    items.foldlM spawnStep acc = some (acc ++ (items.map itemArgs).flatten) := by
  intro items
  induction items with
  | nil => intro acc _; simp
  | cons it its ih =>
    intro acc h
    have hit := h it (by simp)
    rw [List.foldlM_cons, spawnStep_some acc it hit.1 hit.2]
    show its.foldlM spawnStep (acc ++ itemArgs it) = _
    rw [ih (acc ++ itemArgs it) (fun x hx => h x (by simp [hx]))]
    simp

theorem spawnArgs_eq (items : List Item)
    (h : ∀ it ∈ items, it.game.val < 2 ^ 64 ∧ it.item.val < 2 ^ 64) :
    spawnArgs items =
      some (["+login", "anonymous"] ++ (items.map itemArgs).flatten ++ ["+quit"]) := by
  rw [spawnArgs, spawnFold_eq items ["+login", "anonymous"] h]
  rfl

theorem count_itemArgs : ∀ (items : List Item),
    List.count "+workshop_download_item" (items.map itemArgs).flatten = items.length := by
  intro items
  induction items with
  | nil => rfl
  | cons it its ih =>
    rw [List.map_cons, List.flatten_cons]
    rw [List.count_append, ih]
    have hblock : List.count "+workshop_download_item" (itemArgs it) = 1 := by
      rw [itemArgs]
      rw [List.count_cons, List.count_cons, List.count_cons, List.count_nil]
      have hg := decimalRepr_ne_directive it.game.val
      have hi := decimalRepr_ne_directive it.item.val
      simp [hg, hi]
    rw [hblock]
    simp only [List.length_cons]
    omega

/-! ### Claim C1 — the Done pattern -/

/-- Claim C1: a stdout line containing `Downloaded item <ID> to "<path tokens>"
`(<BYTES> bytes)` (after a prefix of tokens that trigger no pattern) makes the
extractor emit `Done(ItemId(ID), path, BYTES)` before the line's own
`Output(Normal(line))` event, where the path is the text between the enclosing
quote marks with the path tokens rejoined by single spaces. -/
theorem c1_done_pattern (line idtok p0 sz p : String)
    (pre ps rest2 : List String) (n b : Nat) (evs : List Event)
    (hsplit : splitSp line =
      pre ++ "Downloaded" :: "item" :: idtok :: "to" :: p0 :: (ps ++ sz :: "bytes)" :: rest2))
    (hpre : ∀ t ∈ pre, trimS t ≠ "Downloading" ∧ trimS t ≠ "Downloaded")
    (hid : parseUsize (trimS idtok) = some n)
    (hps : ∀ t ∈ ps, trimS t ≠ "bytes)")
    (hsz : trimS sz ≠ "bytes)")
    (hb : parseUsize (trimStartParens sz) = some b)
    (hpath : joinSp p0 ps = "\"" ++ p ++ "\"")
    (hrest : scanLoop rest2 = some evs) :
    processLine line =
      some ((Event.Done ⟨n⟩ p b :: evs) ++ [Event.Output (OutputLine.Normal line)]) := by
  rw [processLine, hsplit, scanLoop_append pre _ hpre,
    scanLoop_done "Downloaded" idtok "to" p0 (ps ++ sz :: "bytes)" :: rest2) (by decide),
    hid]
  rw [endLoop_terminates ps p0 sz rest2 hps hsz, hb]
  simp only [Option.map_some']
  rw [hpath, stripEnds_quote p]
  rw [hrest]
  rfl

/-- Witness for C1 at the two concrete lines of the claim. -/
theorem c1_done_pattern_witness :
    processLine "Downloaded item 1631756268 to \"/home/user/workshop/1631756268\" (4096 bytes)" =
      some ((Event.Done ⟨1631756268⟩ "/home/user/workshop/1631756268" 4096 :: []) ++
        [Event.Output (OutputLine.Normal
          "Downloaded item 1631756268 to \"/home/user/workshop/1631756268\" (4096 bytes)")]) ∧
    processLine "Downloaded item 5 to \"/home/user/my workshop dir/5\" (10 bytes)" =
      some ((Event.Done ⟨5⟩ "/home/user/my workshop dir/5" 10 :: []) ++
        [Event.Output (OutputLine.Normal
          "Downloaded item 5 to \"/home/user/my workshop dir/5\" (10 bytes)")]) :=
  ⟨c1_done_pattern _ "1631756268" "\"/home/user/workshop/1631756268\"" "(4096"
      "/home/user/workshop/1631756268" [] [] [] 1631756268 4096 []
      rfl (by simp) rfl (by simp) (by decide) rfl rfl rfl,
   c1_done_pattern _ "5" "\"/home/user/my" "(10" "/home/user/my workshop dir/5"
      [] ["workshop", "dir/5\""] [] 5 10 []
      rfl (by simp) rfl (by decide) (by decide) rfl rfl rfl⟩

/-! ### Claim C2 — the Start pattern -/

/-- Claim C2: a stdout line containing the token sequence
`Downloading item <ID>` (after a prefix of tokens that trigger no pattern)
makes the extractor emit `Starting(ItemId(ID))` before the line's own
`Output(Normal(line))` event. -/
theorem c2_start_pattern (line idtok : String) (pre rest : List String)
    (n : Nat) (evs : List Event)
    (hsplit : splitSp line = pre ++ "Downloading" :: "item" :: idtok :: rest)
    (hpre : ∀ t ∈ pre, trimS t ≠ "Downloading" ∧ trimS t ≠ "Downloaded")
    (hid : parseUsize (trimS idtok) = some n)
    (hrest : scanLoop rest = some evs) :
    processLine line =
      some ((Event.Starting ⟨n⟩ :: evs) ++ [Event.Output (OutputLine.Normal line)]) := by
  rw [processLine, hsplit, scanLoop_append pre _ hpre,
    scanLoop_start "Downloading" idtok rest (by decide), hid]
  dsimp only
  rw [hrest]
  rfl

/-- Witness for C2 at the concrete line of the claim. -/
theorem c2_start_pattern_witness :
    processLine "Downloading item 1631756268" =
      some ((Event.Starting ⟨1631756268⟩ :: []) ++
        [Event.Output (OutputLine.Normal "Downloading item 1631756268")]) :=
  c2_start_pattern _ "1631756268" [] [] 1631756268 [] rfl (by simp) rfl rfl

/-! ### Claim C3 — one Output per line, structured events first -/

/-- Claim C3: when the scan of a line's tokens succeeds, the stdout consumer
produces exactly one `Output(Normal(line))` event for the line; every other
event of the line is a structured `Starting`/`Done` event (one per recognised
pattern occurrence, scanning the whole line), and all of them come before the
line's `Output` event. -/
theorem c3_line_events (line : String) (evs : List Event)
    (h : scanLoop (splitSp line) = some evs) :
    processLine line = some (evs ++ [Event.Output (OutputLine.Normal line)]) ∧
    (∀ e ∈ evs, e.isStructured = true) ∧
    (evs ++ [Event.Output (OutputLine.Normal line)]).countP
      (fun e => !e.isStructured) = 1 := by
  refine ⟨by rw [processLine, h]; rfl, scanLoop_structured h, ?_⟩
  rw [List.countP_append]
  have h1 : evs.countP (fun e => !e.isStructured) = 0 := by
    rw [List.countP_eq_zero]
    intro e he
    simp [scanLoop_structured h e he]
  rw [h1]
  rfl

/-- Witness for C3 at a line holding two pattern occurrences: both structured
events are emitted, then the single Output event. -/
theorem c3_line_events_witness :
    processLine "Downloading item 1 Downloading item 2" =
      some ([Event.Starting ⟨1⟩, Event.Starting ⟨2⟩] ++
        [Event.Output (OutputLine.Normal "Downloading item 1 Downloading item 2")]) ∧
    (∀ e ∈ [Event.Starting (⟨1⟩ : ItemId), Event.Starting ⟨2⟩], e.isStructured = true) ∧
    ([Event.Starting ⟨1⟩, Event.Starting ⟨2⟩] ++
      [Event.Output (OutputLine.Normal "Downloading item 1 Downloading item 2")]).countP
      (fun e => !e.isStructured) = 1 :=
  c3_line_events "Downloading item 1 Downloading item 2"
    [Event.Starting ⟨1⟩, Event.Starting ⟨2⟩] rfl

/-! ### Claim C4 — tokenizer granularity -/

/-- Counterexample to C4 as stated: in the line `Downloading  item 5` the words
`Downloading`, `item`, `5` appear in order separated by whitespace (a run of
two spaces), yet no `Starting` event is emitted — the split is on single space
characters, so the empty token between the two spaces breaks the
`Downloading`/`item` adjacency the scanner requires. -/
theorem c4_counterexample :
    processLine "Downloading  item 5" =
      some [Event.Output (OutputLine.Normal "Downloading  item 5")] := rfl

/-- Claim C4, amended: the line is split at single space characters (not
general whitespace runs); the Start pattern is recognised when the token
`item` immediately follows the current token and the current token merely
trims to `Downloading` — so surrounding whitespace attached to the
`Downloading` token (e.g. a leading tab) is tolerated, but extra space
characters or tabs between the words are not. -/
theorem c4_amended (line w idtok : String) (rest : List String)
    (n : Nat) (evs : List Event)
    (hsplit : splitSp line = w :: "item" :: idtok :: rest)
    (hw : trimS w = "Downloading")
    (hid : parseUsize (trimS idtok) = some n)
    (hrest : scanLoop rest = some evs) :
    processLine line =
      some ((Event.Starting ⟨n⟩ :: evs) ++ [Event.Output (OutputLine.Normal line)]) := by
  rw [processLine, hsplit, scanLoop_start w idtok rest hw, hid]
  dsimp only
  rw [hrest]
  rfl

/-- Witness for the amended C4: a tab attached to the `Downloading` token is
trimmed away and the pattern is still recognised. -/
theorem c4_amended_witness :
    processLine "\tDownloading item 7" =
      some ((Event.Starting ⟨7⟩ :: []) ++
        [Event.Output (OutputLine.Normal "\tDownloading item 7")]) :=
  c4_amended _ "\tDownloading" "7" [] 7 [] rfl (by decide) rfl rfl

/-! ### Claim C5 — the token after the ID -/

/-- Counterexample to C5 as stated: the code never compares the token after
the item id with `to`; in `Downloaded item 5 via "/a/b" (3 bytes)` the token
`via` stands in place of `to` and a `Done` event with the correctly attributed
path `/a/b` is produced all the same. -/
theorem c5_counterexample :
    processLine "Downloaded item 5 via \"/a/b\" (3 bytes)" =
      some [Event.Done ⟨5⟩ "/a/b" 3,
        Event.Output (OutputLine.Normal "Downloaded item 5 via \"/a/b\" (3 bytes)")] := rfl

/-- Claim C5, amended: the token after the item id is consumed and discarded
without being inspected, so the Done pattern completes — with the path
correctly attributed — whatever that token is. -/
theorem c5_amended (line idtok x p0 sz p : String)
    (ps rest2 : List String) (n b : Nat) (evs : List Event)
    (hsplit : splitSp line =
      "Downloaded" :: "item" :: idtok :: x :: p0 :: (ps ++ sz :: "bytes)" :: rest2))
    (hid : parseUsize (trimS idtok) = some n)
    (hps : ∀ t ∈ ps, trimS t ≠ "bytes)")
    (hsz : trimS sz ≠ "bytes)")
    (hb : parseUsize (trimStartParens sz) = some b)
    (hpath : joinSp p0 ps = "\"" ++ p ++ "\"")
    (hrest : scanLoop rest2 = some evs) :
    processLine line =
      some ((Event.Done ⟨n⟩ p b :: evs) ++ [Event.Output (OutputLine.Normal line)]) := by
  rw [processLine, hsplit,
    scanLoop_done "Downloaded" idtok x p0 (ps ++ sz :: "bytes)" :: rest2) (by decide),
    hid]
  rw [endLoop_terminates ps p0 sz rest2 hps hsz, hb]
  simp only [Option.map_some']
  rw [hpath, stripEnds_quote p]
  rw [hrest]
  rfl

/-- Witness for the amended C5 at a line whose fourth token is `via`. -/
theorem c5_amended_witness :
    processLine "Downloaded item 9 via \"/tmp/f\" (12 bytes)" =
      some ((Event.Done ⟨9⟩ "/tmp/f" 12 :: []) ++
        [Event.Output (OutputLine.Normal "Downloaded item 9 via \"/tmp/f\" (12 bytes)")]) :=
  c5_amended _ "9" "via" "\"/tmp/f\"" "(12" "/tmp/f" [] [] 9 12 []
    rfl rfl (by simp) (by decide) rfl rfl rfl

/-! ### Claim C6 — protocol violations panic the stdout task -/

theorem handle_download_end_id_fail (idtok : String) (rest : List String)
    (h : parseUsize (trimS idtok) = none) :
    handle_download_end ("item" :: idtok :: rest) = none := by
  match rest with
  | [] => rfl
  | [_] => rfl
  | x :: p0 :: r => rw [handle_download_end, h]

/-- Claim C6: a line on which a recognised pattern begins but the id token is
absent or unparsable, or on which the Done pattern never meets its `bytes)`
terminator or its byte-count token fails to parse, panics the stdout consumer
task — modelled as `processLine line = none` — so no event of the line,
including the line's own `Output` event, is emitted. -/
theorem c6_protocol_violation :
    (∀ (line idtok : String) (rest : List String),
      splitSp line = "Downloading" :: "item" :: idtok :: rest →
      parseUsize (trimS idtok) = none → processLine line = none) ∧
    (∀ line : String, splitSp line = ["Downloading", "item"] →
      processLine line = none) ∧
    (∀ (line idtok x p0 : String) (rest : List String),
      splitSp line = "Downloaded" :: "item" :: idtok :: x :: p0 :: rest →
      (∀ t ∈ rest, trimS t ≠ "bytes)") → processLine line = none) ∧
    (∀ (line idtok x p0 sz : String) (ps rest2 : List String),
      splitSp line =
        "Downloaded" :: "item" :: idtok :: x :: p0 :: (ps ++ sz :: "bytes)" :: rest2) →
      (∀ t ∈ ps, trimS t ≠ "bytes)") → trimS sz ≠ "bytes)" →
      parseUsize (trimStartParens sz) = none → processLine line = none) ∧
    (∀ (line idtok : String) (rest : List String),
      splitSp line = "Downloaded" :: "item" :: idtok :: rest →
      parseUsize (trimS idtok) = none → processLine line = none) := by
  refine ⟨?_, ?_, ?_, ?_, ?_⟩
  · intro line idtok rest hsplit hid
    rw [processLine, hsplit, scanLoop_start "Downloading" idtok rest (by decide), hid]
    rfl
  · intro line hsplit
    rw [processLine, hsplit, scanLoop_start_missing "Downloading" (by decide)]
    rfl
  · intro line idtok x p0 rest hsplit hterm
    rw [processLine, hsplit, scanLoop_done "Downloaded" idtok x p0 rest (by decide)]
    cases hp : parseUsize (trimS idtok) with
    | none => rfl
    | some n =>
      rw [endLoop_no_term rest p0 hterm]
      rfl
  · intro line idtok x p0 sz ps rest2 hsplit hps hsz hb
    rw [processLine, hsplit,
      scanLoop_done "Downloaded" idtok x p0 (ps ++ sz :: "bytes)" :: rest2) (by decide)]
    cases hp : parseUsize (trimS idtok) with
    | none => rfl
    | some n =>
      rw [endLoop_terminates ps p0 sz rest2 hps hsz, hb]
      rfl
  · intro line idtok rest hsplit hid
    rw [processLine, hsplit,
      scanLoop_done_fail "Downloaded" (idtok :: rest) (by decide)
        (handle_download_end_id_fail idtok rest hid)]
    rfl

/-- Witness for C6: one concrete malformed line per violation kind, each
producing no event at all. -/
theorem c6_protocol_violation_witness :
    processLine "Downloading item abc" = none ∧
    processLine "Downloading item" = none ∧
    processLine "Downloaded item 5 to /a/b junk" = none ∧
    processLine "Downloaded item 5 to \"/a\" (x bytes)" = none ∧
    processLine "Downloaded item zz to \"/a\" (1 bytes)" = none :=
  ⟨c6_protocol_violation.1 _ "abc" [] rfl rfl,
   c6_protocol_violation.2.1 _ rfl,
   c6_protocol_violation.2.2.1 _ "5" "to" "/a/b" ["junk"] rfl (by decide),
   c6_protocol_violation.2.2.2.1 _ "5" "to" "\"/a\"" "(x" [] [] rfl (by simp)
     (by decide) rfl,
   c6_protocol_violation.2.2.2.2 _ "zz" ["to", "\"/a\"", "(1", "bytes)"] rfl rfl⟩

/-! ### Claim C7 — the spawn argument vector -/

/-- Claim C7: the argument vector is exactly the `+login anonymous` bookend,
then per configured item (in order) `+workshop_download_item` immediately
followed by the game id and the item id in decimal, then `+quit`; the empty
configuration gives exactly `["+login", "anonymous", "+quit"]`, and a list of
N items gives exactly N occurrences of `+workshop_download_item`. -/
theorem c7_spawn_args (items : List Item)
    (h : ∀ it ∈ items, it.game.val < 2 ^ 64 ∧ it.item.val < 2 ^ 64) :
    spawnArgs [] = some ["+login", "anonymous", "+quit"] ∧
    spawnArgs items =
      some (["+login", "anonymous"] ++ (items.map itemArgs).flatten ++ ["+quit"]) ∧
    ∀ args, spawnArgs items = some args →
      List.count "+workshop_download_item" args = items.length := by
  refine ⟨rfl, spawnArgs_eq items h, ?_⟩
  intro args hargs
  rw [spawnArgs_eq items h] at hargs
  cases hargs
  rw [List.count_append, List.count_append, count_itemArgs]
  have h1 : List.count "+workshop_download_item" ["+login", "anonymous"] = 0 := by decide
  have h2 : List.count "+workshop_download_item" ["+quit"] = 0 := by decide
  rw [h1, h2]
  omega

/-- Witness for C7 at a two-item configuration. -/
theorem c7_spawn_args_witness :
    spawnArgs [⟨⟨294100⟩, ⟨1631756268⟩⟩, ⟨⟨294100⟩, ⟨123⟩⟩] =
      some ["+login", "anonymous",
        "+workshop_download_item", "294100", "1631756268",
        "+workshop_download_item", "294100", "123", "+quit"] ∧
    List.count "+workshop_download_item"
      ["+login", "anonymous",
        "+workshop_download_item", "294100", "1631756268",
        "+workshop_download_item", "294100", "123", "+quit"] = 2 :=
  ⟨(c7_spawn_args [⟨⟨294100⟩, ⟨1631756268⟩⟩, ⟨⟨294100⟩, ⟨123⟩⟩] (by decide)).2.1,
   (c7_spawn_args [⟨⟨294100⟩, ⟨1631756268⟩⟩, ⟨⟨294100⟩, ⟨123⟩⟩] (by decide)).2.2 _
     (c7_spawn_args [⟨⟨294100⟩, ⟨1631756268⟩⟩, ⟨⟨294100⟩, ⟨123⟩⟩] (by decide)).2.1⟩

/-! ### Claim C8 — the stderr forwarder -/

/-- Claim C8: every stderr line produces exactly one `Output(Error(line))`
event carrying the line verbatim, and the error stream never gives rise to a
`Starting` or `Done` event. -/
theorem c8_stderr_forwarder (lines : List String) :
    stderrTask lines = lines.map (fun l => Event.Output (OutputLine.Error l)) ∧
    (stderrTask lines).length = lines.length ∧
    ∀ e ∈ stderrTask lines, e.isStructured = false ∧
      ∃ l ∈ lines, e = Event.Output (OutputLine.Error l) := by
  induction lines with
  | nil =>
    refine ⟨rfl, rfl, ?_⟩
    intro e he
    simp [stderrTask] at he
  | cons l ls ih =>
    refine ⟨?_, ?_, ?_⟩
    · rw [stderrTask, ih.1, List.map_cons]
    · rw [stderrTask, List.length_cons, ih.2.1, List.length_cons]
    · intro e he
      rw [stderrTask] at he
      rcases List.mem_cons.mp he with h | h
      · subst h
        exact ⟨rfl, l, by simp, rfl⟩
      · obtain ⟨hs, l2, hl2, he2⟩ := ih.2.2 e h
        exact ⟨hs, l2, by simp [hl2], he2⟩

/-! ### Claim C9 — the fixed-buffer decimal rendering -/

/-- Claim C9: for every `usize` value, `write_number_into_buff` succeeds (its
unwraps never fire, 25 bytes sufficing) and produces exactly the text of the
ordinary decimal formatter `Nat.repr`: digits only (no sign, no separators),
nonempty, no leading zero, and denoting the value itself in base ten. -/
theorem c9_write_number (n : Nat) (h : n < 2 ^ 64) :
    write_number_into_buff n = some (Nat.repr n) ∧
    decimalRepr n = Nat.repr n ∧
    (∀ c ∈ (decimalRepr n).data, c.isDigit = true) ∧
    (decimalRepr n).data ≠ [] ∧
    (n ≠ 0 → (decimalRepr n).data.head? ≠ some '0') ∧
    natOfDec (decimalRepr n) = n := by
  refine ⟨?_, decimalRepr_eq_repr n, decimalRepr_all_digits n, decimalRepr_ne_nil n,
    decimalRepr_head_ne_zero n, natOfDec_decimalRepr n⟩
  rw [write_number_some n h, decimalRepr_eq_repr n]

/-- Witness for C9 at a concrete value. -/
theorem c9_write_number_witness :
    write_number_into_buff 1631756268 = some (Nat.repr 1631756268) :=
  (c9_write_number 1631756268 (by decide)).1

/-! ### Claim C10 — the unconditional strip of the path's end characters -/

/-- Claim C10: the final slice removes exactly the first and the last character
of the accumulated path whether or not they are quote marks; it is safe only
when the text has at least two characters with one-byte characters at both
ends, a precondition the Done token grammar does not guarantee — the line
`Downloaded item 1 to x (1 bytes)` (single-character unquoted path) panics the
task, while `Downloaded item 2 to xyz (7 bytes)` silently strips the non-quote
characters `x` and `z`. -/
theorem c10_strip_unconditional :
    (∀ (s : String) (c e : Char) (mid : List Char),
      s.data = c :: (mid ++ [e]) → c.utf8Size = 1 → e.utf8Size = 1 →
      stripEnds s = some (String.mk mid)) ∧
    (∀ s : String, s.data.length < 2 → stripEnds s = none) ∧
    processLine "Downloaded item 1 to x (1 bytes)" = none ∧
    processLine "Downloaded item 2 to xyz (7 bytes)" =
      some [Event.Done ⟨2⟩ "y" 7,
        Event.Output (OutputLine.Normal "Downloaded item 2 to xyz (7 bytes)")] :=
  ⟨stripEnds_eq, stripEnds_short, rfl, rfl⟩

/-- Witness for C10: the strip applied to a concrete non-quoted string and the
panic on a single-character string. -/
theorem c10_strip_unconditional_witness :
    stripEnds "(ab)" = some "ab" ∧ stripEnds "x" = none :=
  ⟨c10_strip_unconditional.1 "(ab)" '(' ')' ['a', 'b'] rfl (by decide) (by decide),
   c10_strip_unconditional.2.1 "x" (by decide)⟩

end Rrm
